import Mathlib

/-!
Verification of the parameter-sampling, configuration-expansion and
strategy-dispatch engine of `routing_sims` (`src/args.rs`).

The Rust code is shallowly embedded: the machine integer type `NN` (`u64`)
is modelled by `Nat` (no claim depends on wrap-around), the floating type
`RR` (`f64`) by `ℚ`, fallible operations (Rust panics) by `Option` /
`Except`, and the unbounded `Iterator` for ranges by a fuel-indexed list
producer.
-/

/-- `type NN = u64` of the source, modelled as `Nat`. -/
abbrev NN := Nat

/-- `type RR = f64` of the source, modelled as `ℚ`. -/
abbrev RR := ℚ

/-- Trait `DefaultStep<T>` of `args.rs`: a default step for a range,
given a sample value. -/
class DefaultStep (α : Type) where
  default_step : α → α

/-- `impl DefaultStep<NN> for NN`: constant `1`. -/
instance instDefaultStepNN : DefaultStep NN := ⟨fun _ => 1⟩

/-- `impl DefaultStep<RR> for RR`: constant `1.0`. -/
instance instDefaultStepRR : DefaultStep RR := ⟨fun _ => 1⟩

/-- The numeric capabilities a swept quantity needs (`AddAssign` and
`PartialOrd` in the source).  Both operations may fail (`none`), which
models the `panic!` in `RelOrAbs`'s implementations. -/
class QuantOps (α : Type) where
  addq : α → α → Option α
  gtq : α → α → Option Bool

instance instQuantOpsNN : QuantOps NN :=
  ⟨fun x y => some (x + y), fun x y => some (decide (x > y))⟩

instance instQuantOpsRR : QuantOps RR :=
  ⟨fun x y => some (x + y), fun x y => some (decide (x > y))⟩

theorem addq_nn (x y : NN) : QuantOps.addq x y = some (x + y) := rfl

theorem gtq_nn (x y : NN) : QuantOps.gtq x y = some (decide (x > y)) := rfl

theorem addq_rr (x y : RR) : QuantOps.addq x y = some (x + y) := rfl

theorem gtq_rr (x y : RR) : QuantOps.gtq x y = some (decide (x > y)) := rfl

/-- `enum RelOrAbs { Rel(RR), Abs(NN) }`. -/
inductive RelOrAbs where
  | Rel : RR → RelOrAbs
  | Abs : NN → RelOrAbs
deriving DecidableEq

/-- `RelOrAbs::from_base`: `Rel(r)` resolves to `((base as RR) * r) as NN`
(truncation towards zero, clamped at zero), `Abs(n)` passes through.
For every rational `x`, `(⌊x⌋).toNat` agrees with Rust's `as u64` cast of
the truncation of `x` (both are `0` for negative `x`). -/
def RelOrAbs.from_base : RelOrAbs → NN → NN
  | .Rel r, base => (⌊(base : ℚ) * r⌋).toNat
  | .Abs n, _ => n

/-- `impl AddAssign for RelOrAbs`; the mismatched arms `panic!`, modelled
by `none`. -/
def RelOrAbs.add : RelOrAbs → RelOrAbs → Option RelOrAbs
  | .Rel x, .Rel y => some (.Rel (x + y))
  | .Abs x, .Abs y => some (.Abs (x + y))
  | .Rel _, .Abs _ => none
  | .Abs _, .Rel _ => none

/-- `impl PartialOrd for RelOrAbs`; the mismatched arms `panic!`, modelled
by `none`; matched arms compare the wrapped numbers (total on `ℚ`/`Nat`). -/
def RelOrAbs.partial_cmp : RelOrAbs → RelOrAbs → Option Ordering
  | .Rel x, .Rel y => some (compare x y)
  | .Abs x, .Abs y => some (compare x y)
  | .Rel _, .Abs _ => none
  | .Abs _, .Rel _ => none

instance instQuantOpsRelOrAbs : QuantOps RelOrAbs :=
  ⟨RelOrAbs.add,
   fun x y => (RelOrAbs.partial_cmp x y).map (fun o => decide (o = Ordering.gt))⟩

/-- `impl DefaultStep<RelOrAbs> for RelOrAbs`: `0.1` for `Rel`, `1` for
`Abs`. -/
instance instDefaultStepRelOrAbs : DefaultStep RelOrAbs :=
  ⟨fun x => match x with
    | .Rel _ => .Rel (1 / 10)
    | .Abs _ => .Abs 1⟩

/-- `enum SamplePoints<T> { Range(T, T, Option<T>), List(Vec<T>), Number(T) }`. -/
inductive SamplePoints (α : Type) where
  | Range : α → α → Option α → SamplePoints α
  | List : List α → SamplePoints α
  | Number : α → SamplePoints α
deriving DecidableEq

/-- Alias for the list type, usable inside the `SamplePoints` namespace
where the bare name `List` denotes the constructor. -/
abbrev ListT (α : Type) := List α

/-- The tail of the values emitted by `SamplePointsIterator::next` for a
range, after the leading `start`: repeatedly `x += step`, emitting `x`
while `x > stop` is false and stopping at the first candidate exceeding
`stop`.  `fuel` bounds the number of `next` calls; `none` models a panic
inside `+=` or the comparison. -/
def rangeTail [QuantOps α] (stop eff : α) : α → Nat → Option (List α)
  | _, 0 => some []
  | x, fuel + 1 =>
    match QuantOps.addq x eff with
    | none => none
    | some y =>
      match QuantOps.gtq y stop with
      | none => none
      | some true => some []
      | some false => (rangeTail stop eff y fuel).map (fun l => y :: l)

/-- The full finite sequence produced by `SamplePoints::iter` (source:
`SamplePointsIterator`): a `Range` yields `start` then its stepped tail, a
`List` yields its elements in order, a `Number` yields once. -/
def SamplePoints.iterList [QuantOps α] [DefaultStep α] :
    SamplePoints α → Nat → Option (ListT α)
  | .Range start stop step, fuel =>
    (rangeTail stop (step.getD (DefaultStep.default_step start)) start fuel).map
      (fun l => start :: l)
  | .List v, _ => some v
  | .Number n, _ => some [n]

/-- Rust `str::split(c)` on a character list: split at every occurrence,
empty pieces preserved (`n` separators give `n + 1` pieces). -/
def splitOnChar (c : Char) : List Char → List (List Char)
  | [] => [[]]
  | x :: xs =>
    match splitOnChar c xs with
    | [] => [[]]
    | h :: t => if x = c then [] :: h :: t else (x :: h) :: t

def natOfDigitsAux : Nat → List Char → Option Nat
  | acc, [] => some acc
  | acc, c :: cs =>
    if c.isDigit then natOfDigitsAux (10 * acc + (c.toNat - 48)) cs else none

/-- Rust `str::parse::<u64>` on the decimal numerals this tool receives:
a non-empty all-digit string. -/
def parseNN (s : List Char) : Option NN :=
  if s.isEmpty then none else natOfDigitsAux 0 s

/-- Magnitude part of `str::parse::<f64>` restricted to plain decimal
numerals (`digits`, `digits.digits`, `digits.` or `.digits`), valued in
`ℚ`. -/
def parseRRUnsigned (s : List Char) : Option RR :=
  match splitOnChar '.' s with
  | [a] => (parseNN a).map (fun n => (n : ℚ))
  | [a, b] =>
    match natOfDigitsAux 0 a, natOfDigitsAux 0 b with
    | some x, some y =>
      if a.isEmpty && b.isEmpty then none
      else some ((x : ℚ) + (y : ℚ) / ((10 : ℚ) ^ b.length))
    | _, _ => none
  | _ => none

/-- Rust `str::parse::<f64>` restricted to the plain decimal numerals,
including a leading minus sign (Rust's float grammar accepts signed
numerals, so a range step such as "-3" parses). -/
def parseRR (s : List Char) : Option RR :=
  match s with
  | '-' :: rest => (parseRRUnsigned rest).map (fun q => -q)
  | _ => parseRRUnsigned s

/-- `impl FromStr for RelOrAbs`: a trailing `%` yields `Rel` of the
numeral times `0.01`, otherwise `Abs` of the numeral. -/
def RelOrAbs.from_str (s : List Char) : Option RelOrAbs :=
  match s.getLast? with
  | some '%' => (parseRR s.dropLast).map (fun r => RelOrAbs.Rel (r * (1 / 100)))
  | _ => (parseNN s).map RelOrAbs.Abs

/-- `impl FromStr for SamplePoints<T>` (source panics are `none`): a
string containing `-` is `start-stop` or `start-stop:step` with exactly
two pieces at each split, a string containing `,` is a list, anything
else a single number. -/
def SamplePoints.from_str (pT : ListT Char → Option α) (s : ListT Char) :
    Option (SamplePoints α) :=
  if s.contains '-' then
    match (if s.contains ':' then
             match splitOnChar ':' s with
             | [f, sec] => (pT sec).map (fun st => (f, some st))
             | _ => none
           else some (s, none)) with
    | none => none
    | some (f, step) =>
      match splitOnChar '-' f with
      | [a, b] =>
        match pT a, pT b with
        | some start, some stop => some (SamplePoints.Range start stop step)
        | _, _ => none
      | _ => none
  else if s.contains ',' then
    ((splitOnChar ',' s).mapM pT).map SamplePoints.List
  else
    (pT s).map SamplePoints.Number

/-- `enum SimType { DirectCalc, Structure, FullSim }`. -/
inductive SimType where
  | DirectCalc
  | Structure
  | FullSim
deriving DecidableEq

/-- `enum AttackType { Untargetted, SimpleTargetted }`. -/
inductive AttackType where
  | Untargetted
  | SimpleTargetted
deriving DecidableEq

/-- `struct SimParams` of `args.rs`. -/
structure SimParams where
  sim_type : SimType
  age_quorum : Bool
  targetting : AttackType
  num_nodes : NN
  num_malicious : RelOrAbs
  min_group_size : NN
  quorum_prop : RR
  max_steps : NN
  repetitions : NN
deriving DecidableEq

def upd_num_nodes (s : SimParams) (n : NN) : SimParams := { s with num_nodes := n }

def upd_num_malicious (s : SimParams) (r : RelOrAbs) : SimParams :=
  { s with num_malicious := r }

def upd_min_group_size (s : SimParams) (k : NN) : SimParams :=
  { s with min_group_size := k }

def upd_quorum_prop (s : SimParams) (q : RR) : SimParams := { s with quorum_prop := q }

def upd_age_quorum (s : SimParams) (b : Bool) : SimParams := { s with age_quorum := b }

def upd_targetting (s : SimParams) (t : AttackType) : SimParams :=
  { s with targetting := t }

/-- One replication pass of `make_sim_params`.  The source fixes
`range = 0..v.len()` before looping, so for each remaining value `x` it
reads the first `v.length` entries of the (growing) accumulator, overrides
one field and pushes the copies at the end. -/
def phase (upd : SimParams → α → SimParams) (v : List SimParams) (vals : List α) :
    List SimParams :=
  vals.foldl (fun acc x => acc ++ (acc.take v.length).map (fun s => upd s x)) v

/-- The expansion core of `ArgProc::make_sim_params`, parametrised by the
head (first iterator item, consumed for the base configuration) and tail
(values consumed by the replication loop) of every dimension's sample
sequence.  Phases run in source order: nodes, malicious, group size,
quorum proportion, quorum type, attack strategy. -/
def make_sim_params_core (tool : SimType) (steps reps : NN)
    (n0 : NN) (ns : List NN) (r0 : RelOrAbs) (rs : List RelOrAbs)
    (k0 : NN) (ks : List NN) (q0 : RR) (qs : List RR)
    (b0 : Bool) (bs : List Bool) (t0 : AttackType) (ts : List AttackType) :
    List SimParams :=
  let base : SimParams := ⟨tool, b0, t0, n0, r0, k0, q0, steps, reps⟩
  phase upd_targetting
    (phase upd_age_quorum
      (phase upd_quorum_prop
        (phase upd_min_group_size
          (phase upd_num_malicious
            (phase upd_num_nodes [base] ns) rs) ks) qs) bs) ts

/-- `struct Args` decoded from the command line (strings for the sweep
flags, already-decoded numbers for `-s` and `-p`). -/
structure Args where
  cmd_calc : Bool
  cmd_structure : Bool
  cmd_full : Bool
  flag_n : Option String
  flag_r : Option String
  flag_k : Option String
  flag_q : Option String
  flag_s : Option NN
  flag_p : Option NN
  flag_Q : Option String
  flag_T : Option String

/-- The `-n` dimension of `make_sim_params`: default `Number(1000)`. -/
def nodes_range_of (a : Args) : Option (SamplePoints NN) :=
  match a.flag_n with
  | none => some (SamplePoints.Number 1000)
  | some s => SamplePoints.from_str parseNN s.data

/-- The `-r` dimension of `make_sim_params`: default `Number(Rel(0.1))`. -/
def mal_range_of (a : Args) : Option (SamplePoints RelOrAbs) :=
  match a.flag_r with
  | none => some (SamplePoints.Number (RelOrAbs.Rel (1 / 10)))
  | some s => SamplePoints.from_str RelOrAbs.from_str s.data

/-- The `-k` dimension of `make_sim_params`: default `Number(10)`. -/
def group_range_of (a : Args) : Option (SamplePoints NN) :=
  match a.flag_k with
  | none => some (SamplePoints.Number 10)
  | some s => SamplePoints.from_str parseNN s.data

/-- The `-q` dimension of `make_sim_params`: default `Number(0.5)`. -/
def quorum_range_of (a : Args) : Option (SamplePoints RR) :=
  match a.flag_q with
  | none => some (SamplePoints.Number (1 / 2))
  | some s => SamplePoints.from_str parseRR s.data

/-- The `-Q` choice set: `simple` or omitted gives `[false]`, `age` gives
`[true]`, `all` gives `[false, true]`; anything else panics (`none`). -/
def q_use_age_of : Option String → Option (List Bool)
  | none => some [false]
  | some s =>
    if s = "simple" then some [false]
    else if s = "age" then some [true]
    else if s = "all" then some [false, true]
    else none

/-- The `-T` choice set: `none` or omitted gives `[Untargetted]`, `simple`
gives `[SimpleTargetted]`, `all` gives both; anything else panics. -/
def at_type_of : Option String → Option (List AttackType)
  | none => some [AttackType.Untargetted]
  | some s =>
    if s = "none" then some [AttackType.Untargetted]
    else if s = "simple" then some [AttackType.SimpleTargetted]
    else if s = "all" then some [AttackType.Untargetted, AttackType.SimpleTargetted]
    else none

/-- The simulation mode selected by the subcommand. -/
def tool_of (a : Args) : Option SimType :=
  if a.cmd_calc then some SimType.DirectCalc
  else if a.cmd_structure then some SimType.Structure
  else if a.cmd_full then some SimType.FullSim
  else none

/-- `ArgProc::make_sim_params`: parse every dimension, iterate each sample
set, build the base configuration from the first items and expand with the
replication phases.  `none` models any panic (parse failure, unknown `-Q`
or `-T` value, mixed rel/abs arithmetic while stepping). -/
def make_sim_params (a : Args) (fuel : Nat) : Option (List SimParams) := do
  let nr ← nodes_range_of a
  let nl ← nr.iterList fuel
  let mr ← mal_range_of a
  let ml ← mr.iterList fuel
  let kr ← group_range_of a
  let kl ← kr.iterList fuel
  let qr ← quorum_range_of a
  let ql ← qr.iterList fuel
  let bs ← q_use_age_of a.flag_Q
  let ts ← at_type_of a.flag_T
  let tool ← tool_of a
  match nl, ml, kl, ql, bs, ts with
  | n0 :: ns, r0 :: rs, k0 :: ks, q0 :: qs, b0 :: bs', t0 :: ts' =>
    some (make_sim_params_core tool (a.flag_s.getD 1000) (a.flag_p.getD 100)
      n0 ns r0 rs k0 ks q0 qs b0 bs' t0 ts')
  | _, _, _, _, _, _ => none

/-- The fixed enumeration of backend variants constructed in
`SimParams::result`: `DirectCalcTool`, `SimStructureTool`, and
`FullSimTool` instantiated with one of the four quorum/attack strategy
pairs. -/
inductive ToolVariant where
  | directCalcTool
  | simStructureTool
  | fullSimpleUntarg
  | fullAgeUntarg
  | fullSimpleTarg
  | fullAgeTarg
deriving DecidableEq

/-- `struct ToolArgs` (declared outside `args.rs`), as populated by
`SimParams::result`. -/
structure ToolArgs where
  num_nodes : NN
  num_malicious : NN
  min_group_size : NN
  quorum_prop : RR
  any_group : Bool
  max_steps : NN
  repetitions : NN
deriving DecidableEq

/-- Modelled from the spec: `ToolArgs::check_invariant` is defined outside
`src/` (only its call site is in `args.rs`).  Per spec section 3 the
configuration invariants are: minimum group size at least 1, quorum
proportion in the half-open interval from 0 exclusive to 1 inclusive,
resolved malicious count at most the node count, and repetition count at
least 1 (required when probabilistic computation runs). -/
def ToolArgs.check_invariant (a : ToolArgs) : Bool :=
  decide (1 ≤ a.min_group_size) && decide (0 < a.quorum_prop)
    && decide (a.quorum_prop ≤ 1) && decide (a.num_malicious ≤ a.num_nodes)
    && decide (1 ≤ a.repetitions)

/-- The `ToolArgs` value built at the top of `SimParams::result`: the
malicious quantity is resolved against the node count via `from_base`,
`any_group` is hard-coded `true`. -/
def SimParams.tool_args (p : SimParams) : ToolArgs :=
  ⟨p.num_nodes, p.num_malicious.from_base p.num_nodes, p.min_group_size,
   p.quorum_prop, true, p.max_steps, p.repetitions⟩

/-- The backend-variant selection of `SimParams::result`: `DirectCalc` and
`Structure` each map to one variant unconditionally; `FullSim` matches on
the pair `(age_quorum, targetting)`. -/
def select_tool (p : SimParams) : ToolVariant :=
  match p.sim_type with
  | SimType.DirectCalc => ToolVariant.directCalcTool
  | SimType.Structure => ToolVariant.simStructureTool
  | SimType.FullSim =>
    match p.age_quorum, p.targetting with
    | false, AttackType.Untargetted => ToolVariant.fullSimpleUntarg
    | true, AttackType.Untargetted => ToolVariant.fullAgeUntarg
    | false, AttackType.SimpleTargetted => ToolVariant.fullSimpleTarg
    | true, AttackType.SimpleTargetted => ToolVariant.fullAgeTarg

/-- `SimParams::result` up to backend invocation: build `ToolArgs` (which
resolves the malicious quantity against the node count), run
`check_invariant` (a violation aborts, modelled by `Except.error`), then
construct the backend variant.  The probability computation itself lives
outside `src/`, so the dispatched variant stands for the invoked backend. -/
def SimParams.result (p : SimParams) : Except String ToolVariant :=
  let args := p.tool_args
  if args.check_invariant then Except.ok (select_tool p)
  else Except.error "invariant violation"

/-! ## Structure of the replication phases -/

theorem phase_go (upd : SimParams → α → SimParams) (v : List SimParams)
    (vals : List α) :
    ∀ rest : List SimParams,
      vals.foldl (fun acc x => acc ++ (acc.take v.length).map (fun s => upd s x))
          (v ++ rest)
        = v ++ rest ++ (vals.map (fun x => v.map (fun s => upd s x))).flatten := by
  induction vals with
  | nil => intro rest; simp
  | cons x xs ih =>
    intro rest
    simp only [List.foldl_cons, List.take_left, List.map_cons, List.flatten_cons]
    have h := ih (rest ++ v.map (fun s => upd s x))
    rw [← List.append_assoc] at h
    rw [h]
    simp [List.append_assoc]

/-- Each replication pass appends, after the list as it stood at the start
of the pass, one block per remaining value: a copy of that whole starting
list with the one field overridden. -/
theorem phase_eq (upd : SimParams → α → SimParams) (v : List SimParams)
    (vals : List α) :
    phase upd v vals
      = v ++ (vals.map (fun x => v.map (fun s => upd s x))).flatten := by
  unfold phase
  have h := phase_go upd v vals []
  rwa [List.append_nil] at h

theorem phase_closed (upd : SimParams → α → SimParams) (v : List SimParams)
    (x0 : α) (xs : List α) (h : ∀ s ∈ v, upd s x0 = s) :
    phase upd v xs = (x0 :: xs).flatMap (fun x => v.map (fun s => upd s x)) := by
  rw [phase_eq, List.flatMap_cons, ← List.flatMap_def]
  have hv : v.map (fun s => upd s x0) = v :=
    (List.map_congr_left h).trans (List.map_id v)
  rw [hv]

/-- The declarative cross product of the six dimensions, ordered the way
the phases of `make_sim_params` emit it (attack strategy outermost, node
count innermost). -/
def cross_list (tool : SimType) (steps reps : NN)
    (nsAll : List NN) (rsAll : List RelOrAbs) (ksAll : List NN)
    (qsAll : List RR) (bsAll : List Bool) (tsAll : List AttackType) :
    List SimParams :=
  tsAll.flatMap (fun t => bsAll.flatMap (fun b => qsAll.flatMap (fun q =>
    ksAll.flatMap (fun k => rsAll.flatMap (fun r => nsAll.map (fun n =>
      ⟨tool, b, t, n, r, k, q, steps, reps⟩))))))

theorem mem_cross_list {tool : SimType} {steps reps : NN}
    {nsAll : List NN} {rsAll : List RelOrAbs} {ksAll : List NN}
    {qsAll : List RR} {bsAll : List Bool} {tsAll : List AttackType}
    {p : SimParams} :
    p ∈ cross_list tool steps reps nsAll rsAll ksAll qsAll bsAll tsAll
      ↔ ∃ t ∈ tsAll, ∃ b ∈ bsAll, ∃ q ∈ qsAll, ∃ k ∈ ksAll, ∃ r ∈ rsAll,
          ∃ n ∈ nsAll, p = ⟨tool, b, t, n, r, k, q, steps, reps⟩ := by
  simp [cross_list, List.mem_flatMap, List.mem_map, eq_comm]

theorem flatMap_singleton_eq_map (l : List α) (f : α → β) :
    (l.flatMap fun x => [f x]) = l.map f := by
  induction l with
  | nil => rfl
  | cons a t ih => simp only [List.flatMap_cons, List.map_cons, ih]; rfl

theorem phase_nodes_closed (tool : SimType) (steps reps : NN) (b0 : Bool)
    (t0 : AttackType) (n0 : NN) (ns : List NN) (r0 : RelOrAbs) (k0 : NN)
    (q0 : RR) :
    phase upd_num_nodes [(⟨tool, b0, t0, n0, r0, k0, q0, steps, reps⟩ : SimParams)] ns
      = (n0 :: ns).map (fun n => ⟨tool, b0, t0, n, r0, k0, q0, steps, reps⟩) := by
  rw [phase_closed upd_num_nodes _ n0 ns (by
    intro s hs
    simp only [List.mem_singleton] at hs
    subst hs
    rfl)]
  simp [upd_num_nodes, flatMap_singleton_eq_map]

theorem phase_malicious_closed (tool : SimType) (steps reps : NN) (b0 : Bool)
    (t0 : AttackType) (n0 : NN) (ns : List NN) (r0 : RelOrAbs)
    (rs : List RelOrAbs) (k0 : NN) (q0 : RR) :
    phase upd_num_malicious
        ((n0 :: ns).map (fun n =>
          (⟨tool, b0, t0, n, r0, k0, q0, steps, reps⟩ : SimParams))) rs
      = (r0 :: rs).flatMap (fun r => (n0 :: ns).map (fun n =>
          (⟨tool, b0, t0, n, r, k0, q0, steps, reps⟩ : SimParams))) := by
  rw [phase_closed upd_num_malicious _ r0 rs (by
    intro s hs
    simp only [List.mem_map] at hs
    obtain ⟨n, _, rfl⟩ := hs
    rfl)]
  simp only [List.map_map]
  rfl

theorem phase_group_closed (tool : SimType) (steps reps : NN) (b0 : Bool)
    (t0 : AttackType) (n0 : NN) (ns : List NN) (r0 : RelOrAbs)
    (rs : List RelOrAbs) (k0 : NN) (ks : List NN) (q0 : RR) :
    phase upd_min_group_size
        ((r0 :: rs).flatMap (fun r => (n0 :: ns).map (fun n =>
          (⟨tool, b0, t0, n, r, k0, q0, steps, reps⟩ : SimParams)))) ks
      = (k0 :: ks).flatMap (fun k => (r0 :: rs).flatMap (fun r =>
          (n0 :: ns).map (fun n =>
            (⟨tool, b0, t0, n, r, k, q0, steps, reps⟩ : SimParams)))) := by
  rw [phase_closed upd_min_group_size _ k0 ks (by
    intro s hs
    simp only [List.mem_flatMap, List.mem_map] at hs
    obtain ⟨r, _, n, _, rfl⟩ := hs
    rfl)]
  simp only [List.map_flatMap, List.map_map]
  rfl

theorem phase_quorum_closed (tool : SimType) (steps reps : NN) (b0 : Bool)
    (t0 : AttackType) (n0 : NN) (ns : List NN) (r0 : RelOrAbs)
    (rs : List RelOrAbs) (k0 : NN) (ks : List NN) (q0 : RR) (qs : List RR) :
    phase upd_quorum_prop
        ((k0 :: ks).flatMap (fun k => (r0 :: rs).flatMap (fun r =>
          (n0 :: ns).map (fun n =>
            (⟨tool, b0, t0, n, r, k, q0, steps, reps⟩ : SimParams))))) qs
      = (q0 :: qs).flatMap (fun q => (k0 :: ks).flatMap (fun k =>
          (r0 :: rs).flatMap (fun r => (n0 :: ns).map (fun n =>
            (⟨tool, b0, t0, n, r, k, q, steps, reps⟩ : SimParams))))) := by
  rw [phase_closed upd_quorum_prop _ q0 qs (by
    intro s hs
    simp only [List.mem_flatMap, List.mem_map] at hs
    obtain ⟨k, _, r, _, n, _, rfl⟩ := hs
    rfl)]
  simp only [List.map_flatMap, List.map_map]
  rfl

theorem phase_age_closed (tool : SimType) (steps reps : NN) (b0 : Bool)
    (bs : List Bool) (t0 : AttackType) (n0 : NN) (ns : List NN)
    (r0 : RelOrAbs) (rs : List RelOrAbs) (k0 : NN) (ks : List NN) (q0 : RR)
    (qs : List RR) :
    phase upd_age_quorum
        ((q0 :: qs).flatMap (fun q => (k0 :: ks).flatMap (fun k =>
          (r0 :: rs).flatMap (fun r => (n0 :: ns).map (fun n =>
            (⟨tool, b0, t0, n, r, k, q, steps, reps⟩ : SimParams)))))) bs
      = (b0 :: bs).flatMap (fun b => (q0 :: qs).flatMap (fun q =>
          (k0 :: ks).flatMap (fun k => (r0 :: rs).flatMap (fun r =>
            (n0 :: ns).map (fun n =>
              (⟨tool, b, t0, n, r, k, q, steps, reps⟩ : SimParams)))))) := by
  rw [phase_closed upd_age_quorum _ b0 bs (by
    intro s hs
    simp only [List.mem_flatMap, List.mem_map] at hs
    obtain ⟨q, _, k, _, r, _, n, _, rfl⟩ := hs
    rfl)]
  simp only [List.map_flatMap, List.map_map]
  rfl

theorem phase_targetting_closed (tool : SimType) (steps reps : NN) (b0 : Bool)
    (bs : List Bool) (t0 : AttackType) (ts : List AttackType) (n0 : NN)
    (ns : List NN) (r0 : RelOrAbs) (rs : List RelOrAbs) (k0 : NN)
    (ks : List NN) (q0 : RR) (qs : List RR) :
    phase upd_targetting
        ((b0 :: bs).flatMap (fun b => (q0 :: qs).flatMap (fun q =>
          (k0 :: ks).flatMap (fun k => (r0 :: rs).flatMap (fun r =>
            (n0 :: ns).map (fun n =>
              (⟨tool, b, t0, n, r, k, q, steps, reps⟩ : SimParams))))))) ts
      = (t0 :: ts).flatMap (fun t => (b0 :: bs).flatMap (fun b =>
          (q0 :: qs).flatMap (fun q => (k0 :: ks).flatMap (fun k =>
            (r0 :: rs).flatMap (fun r => (n0 :: ns).map (fun n =>
              (⟨tool, b, t, n, r, k, q, steps, reps⟩ : SimParams))))))) := by
  rw [phase_closed upd_targetting _ t0 ts (by
    intro s hs
    simp only [List.mem_flatMap, List.mem_map] at hs
    obtain ⟨b, _, q, _, k, _, r, _, n, _, rfl⟩ := hs
    rfl)]
  simp only [List.map_flatMap, List.map_map]
  rfl

/-- The expansion equals the declarative cross product, attack strategy
outermost and node count innermost. -/
theorem make_sim_params_core_eq (tool : SimType) (steps reps : NN)
    (n0 : NN) (ns : List NN) (r0 : RelOrAbs) (rs : List RelOrAbs)
    (k0 : NN) (ks : List NN) (q0 : RR) (qs : List RR)
    (b0 : Bool) (bs : List Bool) (t0 : AttackType) (ts : List AttackType) :
    make_sim_params_core tool steps reps n0 ns r0 rs k0 ks q0 qs b0 bs t0 ts
      = cross_list tool steps reps (n0 :: ns) (r0 :: rs) (k0 :: ks)
          (q0 :: qs) (b0 :: bs) (t0 :: ts) := by
  simp only [make_sim_params_core, cross_list]
  rw [phase_nodes_closed, phase_malicious_closed, phase_group_closed,
    phase_quorum_closed, phase_age_closed, phase_targetting_closed]

theorem length_flatMap_const {l : List α} {f : α → List β} {k : ℕ}
    (h : ∀ a ∈ l, (f a).length = k) : (l.flatMap f).length = l.length * k := by
  induction l with
  | nil => simp
  | cons a t ih =>
    have ht : ∀ b ∈ t, (f b).length = k := fun b hb => h b (List.mem_cons_of_mem a hb)
    simp only [List.flatMap_cons, List.length_append, h a (List.mem_cons_self a t),
      ih ht, List.length_cons]
    ring

theorem nodup_flatMap_proj {l : List α} {f : α → List β} (proj : β → α)
    (hl : l.Nodup) (hf : ∀ a ∈ l, (f a).Nodup)
    (hproj : ∀ a ∈ l, ∀ b ∈ f a, proj b = a) :
    (l.flatMap f).Nodup := by
  induction l with
  | nil => simp
  | cons a t ih =>
    rw [List.flatMap_cons, List.nodup_append]
    refine ⟨hf a (List.mem_cons_self a t),
      ih (List.Nodup.of_cons hl)
        (fun x hx => hf x (List.mem_cons_of_mem a hx))
        (fun x hx b hb => hproj x (List.mem_cons_of_mem a hx) b hb), ?_⟩
    intro b hb hb'
    have h1 : proj b = a := hproj a (List.mem_cons_self a t) b hb
    rw [List.mem_flatMap] at hb'
    obtain ⟨x, hx, hbx⟩ := hb'
    have h2 : proj b = x := hproj x (List.mem_cons_of_mem a hx) b hbx
    exact (List.nodup_cons.mp hl).1 (by rw [h1.symm.trans h2]; exact hx)

theorem length_cross_list (tool : SimType) (steps reps : NN)
    (nsAll : List NN) (rsAll : List RelOrAbs) (ksAll : List NN)
    (qsAll : List RR) (bsAll : List Bool) (tsAll : List AttackType) :
    (cross_list tool steps reps nsAll rsAll ksAll qsAll bsAll tsAll).length
      = nsAll.length * rsAll.length * ksAll.length * qsAll.length
          * bsAll.length * tsAll.length := by
  unfold cross_list
  have hn : ∀ (b : Bool) (t : AttackType) (k : NN) (q : RR) (r : RelOrAbs),
      ((nsAll.map (fun n =>
        (⟨tool, b, t, n, r, k, q, steps, reps⟩ : SimParams))).length)
        = nsAll.length := fun _ _ _ _ _ => List.length_map _ _
  have hr : ∀ (b : Bool) (t : AttackType) (k : NN) (q : RR),
      ((rsAll.flatMap (fun r => nsAll.map (fun n =>
        (⟨tool, b, t, n, r, k, q, steps, reps⟩ : SimParams)))).length)
        = rsAll.length * nsAll.length :=
    fun b t k q => length_flatMap_const (fun r _ => hn b t k q r)
  have hk : ∀ (b : Bool) (t : AttackType) (q : RR),
      ((ksAll.flatMap (fun k => rsAll.flatMap (fun r => nsAll.map (fun n =>
        (⟨tool, b, t, n, r, k, q, steps, reps⟩ : SimParams))))).length)
        = ksAll.length * (rsAll.length * nsAll.length) :=
    fun b t q => length_flatMap_const (fun k _ => hr b t k q)
  have hq : ∀ (b : Bool) (t : AttackType),
      ((qsAll.flatMap (fun q => ksAll.flatMap (fun k => rsAll.flatMap (fun r =>
        nsAll.map (fun n =>
          (⟨tool, b, t, n, r, k, q, steps, reps⟩ : SimParams)))))).length)
        = qsAll.length * (ksAll.length * (rsAll.length * nsAll.length)) :=
    fun b t => length_flatMap_const (fun q _ => hk b t q)
  have hb : ∀ t : AttackType,
      ((bsAll.flatMap (fun b => qsAll.flatMap (fun q => ksAll.flatMap (fun k =>
        rsAll.flatMap (fun r => nsAll.map (fun n =>
          (⟨tool, b, t, n, r, k, q, steps, reps⟩ : SimParams))))))).length)
        = bsAll.length
            * (qsAll.length * (ksAll.length * (rsAll.length * nsAll.length))) :=
    fun t => length_flatMap_const (fun b _ => hq b t)
  rw [length_flatMap_const (fun t _ => hb t)]
  ring

theorem nodup_cross_list (tool : SimType) (steps reps : NN)
    {nsAll : List NN} {rsAll : List RelOrAbs} {ksAll : List NN}
    {qsAll : List RR} {bsAll : List Bool} {tsAll : List AttackType}
    (hn : nsAll.Nodup) (hr : rsAll.Nodup) (hk : ksAll.Nodup)
    (hq : qsAll.Nodup) (hb : bsAll.Nodup) (ht : tsAll.Nodup) :
    (cross_list tool steps reps nsAll rsAll ksAll qsAll bsAll tsAll).Nodup := by
  unfold cross_list
  apply nodup_flatMap_proj SimParams.targetting ht
  · intro t _
    apply nodup_flatMap_proj SimParams.age_quorum hb
    · intro b _
      apply nodup_flatMap_proj SimParams.quorum_prop hq
      · intro q _
        apply nodup_flatMap_proj SimParams.min_group_size hk
        · intro k _
          apply nodup_flatMap_proj SimParams.num_malicious hr
          · intro r _
            exact List.Nodup.map
              (fun n n' hnn => congrArg SimParams.num_nodes hnn) hn
          · intro r _ p hp
            simp only [List.mem_map] at hp
            obtain ⟨n, _, rfl⟩ := hp
            rfl
        · intro k _ p hp
          simp only [List.mem_flatMap, List.mem_map] at hp
          obtain ⟨r, _, n, _, rfl⟩ := hp
          rfl
      · intro q _ p hp
        simp only [List.mem_flatMap, List.mem_map] at hp
        obtain ⟨k, _, r, _, n, _, rfl⟩ := hp
        rfl
    · intro b _ p hp
      simp only [List.mem_flatMap, List.mem_map] at hp
      obtain ⟨q, _, k, _, r, _, n, _, rfl⟩ := hp
      rfl
  · intro t _ p hp
    simp only [List.mem_flatMap, List.mem_map] at hp
    obtain ⟨b, _, q, _, k, _, r, _, n, _, rfl⟩ := hp
    rfl

/-- C1: for every choice of per-dimension sample sets (node count,
malicious quantity, minimum group size, quorum proportion, quorum
algorithm flag, attack-targeting variant), each non-empty (a head plus a
tail) and duplicate-free, the expansion performed by `make_sim_params`
produces a configuration list whose length equals the product of the six
dimensions' sample-set sizes, containing every combination of one value
per dimension exactly once, with no duplicates. -/
theorem make_sim_params_full_cross_product
    (tool : SimType) (steps reps : NN)
    (n0 : NN) (ns : List NN) (r0 : RelOrAbs) (rs : List RelOrAbs)
    (k0 : NN) (ks : List NN) (q0 : RR) (qs : List RR)
    (b0 : Bool) (bs : List Bool) (t0 : AttackType) (ts : List AttackType)
    (hn : (n0 :: ns).Nodup) (hr : (r0 :: rs).Nodup) (hk : (k0 :: ks).Nodup)
    (hq : (q0 :: qs).Nodup) (hb : (b0 :: bs).Nodup) (ht : (t0 :: ts).Nodup) :
    (make_sim_params_core tool steps reps n0 ns r0 rs k0 ks q0 qs b0 bs t0 ts).length
        = (n0 :: ns).length * (r0 :: rs).length * (k0 :: ks).length
            * (q0 :: qs).length * (b0 :: bs).length * (t0 :: ts).length
      ∧ (make_sim_params_core tool steps reps n0 ns r0 rs k0 ks q0 qs b0 bs t0 ts).Nodup
      ∧ (∀ n ∈ n0 :: ns, ∀ r ∈ r0 :: rs, ∀ k ∈ k0 :: ks, ∀ q ∈ q0 :: qs,
          ∀ b ∈ b0 :: bs, ∀ t ∈ t0 :: ts,
          (make_sim_params_core tool steps reps n0 ns r0 rs k0 ks q0 qs b0 bs t0 ts).count
              ⟨tool, b, t, n, r, k, q, steps, reps⟩ = 1) := by
  rw [make_sim_params_core_eq]
  refine ⟨length_cross_list tool steps reps _ _ _ _ _ _,
    nodup_cross_list tool steps reps hn hr hk hq hb ht, ?_⟩
  intro n hn' r hr' k hk' q hq' b hb' t ht'
  exact List.count_eq_one_of_mem
    (nodup_cross_list tool steps reps hn hr hk hq hb ht)
    (mem_cross_list.mpr ⟨t, ht', b, hb', q, hq', k, hk', r, hr', n, hn', rfl⟩)

/-- Closed instance of the cross-product theorem: two node counts, both
quorum flags and both attack strategies give eight distinct
configurations. -/
theorem make_sim_params_full_cross_product_witness :
    ([1000, 2000] : List NN).Nodup
    ∧ ([RelOrAbs.Rel (1 / 10)] : List RelOrAbs).Nodup
    ∧ ([10] : List NN).Nodup
    ∧ ([(1 / 2 : RR)]).Nodup
    ∧ ([false, true] : List Bool).Nodup
    ∧ ([AttackType.Untargetted, AttackType.SimpleTargetted]).Nodup
    ∧ ((make_sim_params_core SimType.FullSim 1000 100 1000 [2000]
          (RelOrAbs.Rel (1 / 10)) [] 10 [] (1 / 2) [] false [true]
          AttackType.Untargetted [AttackType.SimpleTargetted]).length
          = ([1000, 2000] : List NN).length * [RelOrAbs.Rel (1 / 10)].length
              * ([10] : List NN).length * [(1 / 2 : RR)].length
              * ([false, true] : List Bool).length
              * [AttackType.Untargetted, AttackType.SimpleTargetted].length
        ∧ (make_sim_params_core SimType.FullSim 1000 100 1000 [2000]
            (RelOrAbs.Rel (1 / 10)) [] 10 [] (1 / 2) [] false [true]
            AttackType.Untargetted [AttackType.SimpleTargetted]).Nodup
        ∧ (∀ n ∈ ([1000, 2000] : List NN), ∀ r ∈ [RelOrAbs.Rel (1 / 10)],
            ∀ k ∈ ([10] : List NN), ∀ q ∈ [(1 / 2 : RR)],
            ∀ b ∈ [false, true],
            ∀ t ∈ [AttackType.Untargetted, AttackType.SimpleTargetted],
            (make_sim_params_core SimType.FullSim 1000 100 1000 [2000]
              (RelOrAbs.Rel (1 / 10)) [] 10 [] (1 / 2) [] false [true]
              AttackType.Untargetted [AttackType.SimpleTargetted]).count
                ⟨SimType.FullSim, b, t, n, r, k, q, 1000, 100⟩ = 1)) :=
  ⟨by decide, by decide, by decide, by decide, by decide, by decide,
   make_sim_params_full_cross_product SimType.FullSim 1000 100 1000 [2000]
     (RelOrAbs.Rel (1 / 10)) [] 10 [] (1 / 2) [] false [true]
     AttackType.Untargetted [AttackType.SimpleTargetted]
     (by decide) (by decide) (by decide) (by decide) (by decide) (by decide)⟩

/-- C2: the expanded list begins with the base configuration built from
the first sampled value of every dimension; each replication pass (in the
fixed order nodes, malicious, group size, quorum proportion, quorum flag,
attack flag) appends, for each remaining value, a contiguous copy of the
list as it stood at the start of that pass with only that one field
overridden; and configurations produced while expanding an earlier
dimension retain the first sampled value of every not-yet-expanded
dimension. -/
theorem make_sim_params_replication_order
    (tool : SimType) (steps reps : NN)
    (n0 : NN) (ns : List NN) (r0 : RelOrAbs) (rs : List RelOrAbs)
    (k0 : NN) (ks : List NN) (q0 : RR) (qs : List RR)
    (b0 : Bool) (bs : List Bool) (t0 : AttackType) (ts : List AttackType) :
    (make_sim_params_core tool steps reps n0 ns r0 rs k0 ks q0 qs b0 bs t0 ts).head?
        = some ⟨tool, b0, t0, n0, r0, k0, q0, steps, reps⟩
    ∧ (∀ (α : Type) (upd : SimParams → α → SimParams) (v : List SimParams)
        (vals : List α),
        phase upd v vals
          = v ++ (vals.map (fun x => v.map (fun s => upd s x))).flatten)
    ∧ (∀ p ∈ phase upd_num_nodes
          [(⟨tool, b0, t0, n0, r0, k0, q0, steps, reps⟩ : SimParams)] ns,
        p.num_malicious = r0 ∧ p.min_group_size = k0 ∧ p.quorum_prop = q0
          ∧ p.age_quorum = b0 ∧ p.targetting = t0)
    ∧ (∀ p ∈ phase upd_num_malicious
          (phase upd_num_nodes
            [(⟨tool, b0, t0, n0, r0, k0, q0, steps, reps⟩ : SimParams)] ns) rs,
        p.min_group_size = k0 ∧ p.quorum_prop = q0 ∧ p.age_quorum = b0
          ∧ p.targetting = t0)
    ∧ (∀ p ∈ phase upd_min_group_size
          (phase upd_num_malicious
            (phase upd_num_nodes
              [(⟨tool, b0, t0, n0, r0, k0, q0, steps, reps⟩ : SimParams)] ns) rs) ks,
        p.quorum_prop = q0 ∧ p.age_quorum = b0 ∧ p.targetting = t0)
    ∧ (∀ p ∈ phase upd_quorum_prop
          (phase upd_min_group_size
            (phase upd_num_malicious
              (phase upd_num_nodes
                [(⟨tool, b0, t0, n0, r0, k0, q0, steps, reps⟩ : SimParams)] ns) rs) ks) qs,
        p.age_quorum = b0 ∧ p.targetting = t0)
    ∧ (∀ p ∈ phase upd_age_quorum
          (phase upd_quorum_prop
            (phase upd_min_group_size
              (phase upd_num_malicious
                (phase upd_num_nodes
                  [(⟨tool, b0, t0, n0, r0, k0, q0, steps, reps⟩ : SimParams)] ns) rs) ks) qs) bs,
        p.targetting = t0) := by
  refine ⟨?_, fun α upd v vals => phase_eq upd v vals, ?_, ?_, ?_, ?_, ?_⟩
  · rw [make_sim_params_core_eq]
    simp [cross_list, List.flatMap_cons, List.map_cons]
  · rw [phase_nodes_closed]
    intro p hp
    simp only [List.mem_map] at hp
    obtain ⟨n, _, rfl⟩ := hp
    exact ⟨rfl, rfl, rfl, rfl, rfl⟩
  · rw [phase_nodes_closed, phase_malicious_closed]
    intro p hp
    simp only [List.mem_flatMap, List.mem_map] at hp
    obtain ⟨r, _, n, _, rfl⟩ := hp
    exact ⟨rfl, rfl, rfl, rfl⟩
  · rw [phase_nodes_closed, phase_malicious_closed, phase_group_closed]
    intro p hp
    simp only [List.mem_flatMap, List.mem_map] at hp
    obtain ⟨k, _, r, _, n, _, rfl⟩ := hp
    exact ⟨rfl, rfl, rfl⟩
  · rw [phase_nodes_closed, phase_malicious_closed, phase_group_closed,
      phase_quorum_closed]
    intro p hp
    simp only [List.mem_flatMap, List.mem_map] at hp
    obtain ⟨q, _, k, _, r, _, n, _, rfl⟩ := hp
    exact ⟨rfl, rfl⟩
  · rw [phase_nodes_closed, phase_malicious_closed, phase_group_closed,
      phase_quorum_closed, phase_age_closed]
    intro p hp
    simp only [List.mem_flatMap, List.mem_map] at hp
    obtain ⟨b, _, q, _, k, _, r, _, n, _, rfl⟩ := hp
    rfl

/-- Closed instance of the replication-order theorem: after the node-count
pass the replica of the base at the new node count still carries the first
sampled value of every later dimension. -/
theorem make_sim_params_replication_order_witness :
    ((⟨SimType.FullSim, false, AttackType.Untargetted, 5, RelOrAbs.Abs 3, 10,
        1 / 2, 1000, 100⟩ : SimParams)
      ∈ phase upd_num_nodes
          [(⟨SimType.FullSim, false, AttackType.Untargetted, 4, RelOrAbs.Abs 3,
            10, 1 / 2, 1000, 100⟩ : SimParams)] [5])
    ∧ ((⟨SimType.FullSim, false, AttackType.Untargetted, 5, RelOrAbs.Abs 3, 10,
          1 / 2, 1000, 100⟩ : SimParams).num_malicious = RelOrAbs.Abs 3
        ∧ (⟨SimType.FullSim, false, AttackType.Untargetted, 5, RelOrAbs.Abs 3,
            10, 1 / 2, 1000, 100⟩ : SimParams).min_group_size = 10
        ∧ (⟨SimType.FullSim, false, AttackType.Untargetted, 5, RelOrAbs.Abs 3,
            10, 1 / 2, 1000, 100⟩ : SimParams).quorum_prop = 1 / 2
        ∧ (⟨SimType.FullSim, false, AttackType.Untargetted, 5, RelOrAbs.Abs 3,
            10, 1 / 2, 1000, 100⟩ : SimParams).age_quorum = false
        ∧ (⟨SimType.FullSim, false, AttackType.Untargetted, 5, RelOrAbs.Abs 3,
            10, 1 / 2, 1000, 100⟩ : SimParams).targetting
            = AttackType.Untargetted) :=
  have hm : (⟨SimType.FullSim, false, AttackType.Untargetted, 5, RelOrAbs.Abs 3,
      10, 1 / 2, 1000, 100⟩ : SimParams)
      ∈ phase upd_num_nodes
          [(⟨SimType.FullSim, false, AttackType.Untargetted, 4, RelOrAbs.Abs 3,
            10, 1 / 2, 1000, 100⟩ : SimParams)] [5] := by
    rw [phase_nodes_closed]
    exact List.mem_map.mpr ⟨5, by simp, rfl⟩
  ⟨hm,
   (make_sim_params_replication_order SimType.FullSim 1000 100 4 [5]
      (RelOrAbs.Abs 3) [] 10 [] (1 / 2) [] false [] AttackType.Untargetted
      []).2.2.1 _ hm⟩

/-- C9: every configuration in the list produced by the expansion has the
same simulation mode, `max_steps` and `repetitions` as the base
configuration; the replication passes vary only the six swept fields. -/
theorem make_sim_params_fixed_fields
    (tool : SimType) (steps reps : NN)
    (n0 : NN) (ns : List NN) (r0 : RelOrAbs) (rs : List RelOrAbs)
    (k0 : NN) (ks : List NN) (q0 : RR) (qs : List RR)
    (b0 : Bool) (bs : List Bool) (t0 : AttackType) (ts : List AttackType) :
    ∀ p ∈ make_sim_params_core tool steps reps n0 ns r0 rs k0 ks q0 qs b0 bs t0 ts,
      p.sim_type = tool ∧ p.max_steps = steps ∧ p.repetitions = reps := by
  rw [make_sim_params_core_eq]
  intro p hp
  rw [mem_cross_list] at hp
  obtain ⟨t, _, b, _, q, _, k, _, r, _, n, _, rfl⟩ := hp
  exact ⟨rfl, rfl, rfl⟩

/-- Closed instance of the fixed-fields theorem on a two-dimension
expansion. -/
theorem make_sim_params_fixed_fields_witness :
    ((⟨SimType.Structure, true, AttackType.Untargetted, 60, RelOrAbs.Abs 5, 10,
        1 / 2, 20, 30⟩ : SimParams)
      ∈ make_sim_params_core SimType.Structure 20 30 50 [60] (RelOrAbs.Abs 5)
          [] 10 [] (1 / 2) [] false [true] AttackType.Untargetted [])
    ∧ ((⟨SimType.Structure, true, AttackType.Untargetted, 60, RelOrAbs.Abs 5,
          10, 1 / 2, 20, 30⟩ : SimParams).sim_type = SimType.Structure
        ∧ (⟨SimType.Structure, true, AttackType.Untargetted, 60, RelOrAbs.Abs 5,
            10, 1 / 2, 20, 30⟩ : SimParams).max_steps = 20
        ∧ (⟨SimType.Structure, true, AttackType.Untargetted, 60, RelOrAbs.Abs 5,
            10, 1 / 2, 20, 30⟩ : SimParams).repetitions = 30) :=
  have hm : (⟨SimType.Structure, true, AttackType.Untargetted, 60, RelOrAbs.Abs 5,
      10, 1 / 2, 20, 30⟩ : SimParams)
      ∈ make_sim_params_core SimType.Structure 20 30 50 [60] (RelOrAbs.Abs 5)
          [] 10 [] (1 / 2) [] false [true] AttackType.Untargetted [] := by
    rw [make_sim_params_core_eq]
    exact mem_cross_list.mpr ⟨AttackType.Untargetted, by simp, true, by simp,
      1 / 2, by simp, 10, by simp, RelOrAbs.Abs 5, by simp, 60, by simp, rfl⟩
  ⟨hm,
   make_sim_params_fixed_fields SimType.Structure 20 30 50 [60]
     (RelOrAbs.Abs 5) [] 10 [] (1 / 2) [] false [true] AttackType.Untargetted
     [] _ hm⟩

/-! ## Behaviour of the range iterator -/

theorem rangeTail_none_step [QuantOps α] {stop eff x y : α}
    (h : QuantOps.addq x eff = some y) (hgt : QuantOps.gtq y stop = some true) :
    ∀ fuel, rangeTail stop eff x fuel = some [] := by
  intro fuel
  cases fuel with
  | zero => rfl
  | succ f => simp [rangeTail, h, hgt]

theorem rangeTail_chain [QuantOps α] (stop eff : α) :
    ∀ (fuel : ℕ) (x : α) (tail : List α),
      rangeTail stop eff x fuel = some tail →
      ∀ i v, (x :: tail).get? (i + 1) = some v →
        ∃ u, (x :: tail).get? i = some u ∧ QuantOps.addq u eff = some v
          ∧ QuantOps.gtq v stop = some false := by
  intro fuel
  induction fuel with
  | zero =>
    intro x tail h i v hv
    simp only [rangeTail, Option.some.injEq] at h
    subst h
    simp [List.get?] at hv
  | succ f ih =>
    intro x tail h i v hv
    cases haddq : QuantOps.addq x eff with
    | none => simp only [rangeTail, haddq] at h; exact Option.noConfusion h
    | some y =>
      cases hgt : QuantOps.gtq y stop with
      | none => simp only [rangeTail, haddq, hgt] at h; exact Option.noConfusion h
      | some b =>
        cases b with
        | true =>
          simp only [rangeTail, haddq, hgt, Option.some.injEq] at h
          subst h
          simp [List.get?] at hv
        | false =>
          simp only [rangeTail, haddq, hgt] at h
          rw [Option.map_eq_some'] at h
          obtain ⟨tail', h', rfl⟩ := h
          cases i with
          | zero =>
            rw [List.get?_cons_succ, List.get?_cons_zero,
              Option.some.injEq] at hv
            subst hv
            exact ⟨x, List.get?_cons_zero, haddq, hgt⟩
          | succ j =>
            obtain ⟨u, hu, h1, h2⟩ := ih y tail' h' j v (by simpa using hv)
            exact ⟨u, by simpa using hu, h1, h2⟩

theorem rangeTail_last [QuantOps α] (stop eff : α) :
    ∀ (fuel : ℕ) (x : α) (tail : List α),
      rangeTail stop eff x fuel = some tail → tail.length < fuel →
      ∃ u y, (x :: tail).getLast? = some u ∧ QuantOps.addq u eff = some y
        ∧ QuantOps.gtq y stop = some true := by
  intro fuel
  induction fuel with
  | zero => intro x tail h hlen; exact absurd hlen (Nat.not_lt_zero _)
  | succ f ih =>
    intro x tail h hlen
    cases haddq : QuantOps.addq x eff with
    | none => simp only [rangeTail, haddq] at h; exact Option.noConfusion h
    | some y =>
      cases hgt : QuantOps.gtq y stop with
      | none => simp only [rangeTail, haddq, hgt] at h; exact Option.noConfusion h
      | some b =>
        cases b with
        | true =>
          simp only [rangeTail, haddq, hgt, Option.some.injEq] at h
          subst h
          exact ⟨x, y, List.getLast?_singleton x, haddq, hgt⟩
        | false =>
          simp only [rangeTail, haddq, hgt] at h
          rw [Option.map_eq_some'] at h
          obtain ⟨tail', h', rfl⟩ := h
          have hlen' : tail'.length < f := by
            simp only [List.length_cons] at hlen
            omega
          obtain ⟨u, z, hu, h1, h2⟩ := ih y tail' h' hlen'
          exact ⟨u, z, by rw [List.getLast?_cons_cons]; exact hu, h1, h2⟩

/-- C3: for every quantity type with the numeric capabilities, iterating a
`Range(start, stop, step?)` yields `start` first; each subsequent value is
the previous one plus the effective step (the given step, else the default
step evaluated at `start`) and is emitted only if it does not exceed
`stop`; iteration ends as soon as the next candidate exceeds `stop` (in
particular when the very first candidate does, only `start` is yielded);
and the parse of "10-20:5" iterates to exactly `[10, 15, 20]`. -/
theorem sample_points_range_iteration :
    (∀ (α : Type) (inst1 : QuantOps α) (inst2 : DefaultStep α)
        (start stop : α) (step : Option α) (fuel : ℕ) (l : List α),
        SamplePoints.iterList (SamplePoints.Range start stop step) fuel = some l →
        l.head? = some start
          ∧ (∀ i v, l.get? (i + 1) = some v →
              ∃ u, l.get? i = some u
                ∧ QuantOps.addq u (step.getD (DefaultStep.default_step start))
                    = some v
                ∧ QuantOps.gtq v stop = some false)
          ∧ (l.length < fuel + 1 →
              ∃ u y, l.getLast? = some u
                ∧ QuantOps.addq u (step.getD (DefaultStep.default_step start))
                    = some y
                ∧ QuantOps.gtq y stop = some true))
    ∧ SamplePoints.from_str parseNN ("10-20:5").data
        = some (SamplePoints.Range 10 20 (some 5))
    ∧ (∀ fuel, 2 ≤ fuel →
        SamplePoints.iterList (SamplePoints.Range (10 : NN) 20 (some 5)) fuel
          = some [10, 15, 20])
    ∧ (∀ (α : Type) (inst1 : QuantOps α) (inst2 : DefaultStep α)
        (start stop y : α) (step : Option α) (fuel : ℕ),
        QuantOps.addq start (step.getD (DefaultStep.default_step start))
            = some y →
        QuantOps.gtq y stop = some true →
        SamplePoints.iterList (SamplePoints.Range start stop step) fuel
          = some [start]) := by
  refine ⟨?_, by decide, ?_, ?_⟩
  · intro α inst1 inst2 start stop step fuel l h
    simp only [SamplePoints.iterList] at h
    rw [Option.map_eq_some'] at h
    obtain ⟨tail, ht, rfl⟩ := h
    refine ⟨rfl, rangeTail_chain stop _ fuel start tail ht, ?_⟩
    intro hlen
    have hlen' : tail.length < fuel := by
      simp only [List.length_cons] at hlen
      omega
    exact rangeTail_last stop _ fuel start tail ht hlen'
  · intro fuel hf
    obtain ⟨f, rfl⟩ : ∃ f, fuel = f + 2 := ⟨fuel - 2, by omega⟩
    have e3 : ∀ g, rangeTail (20 : NN) 5 20 g = some [] :=
      rangeTail_none_step rfl rfl
    have e1 : rangeTail (20 : NN) 5 10 (f + 2) = some [15, 20] := by
      simp only [rangeTail, addq_nn, gtq_nn]
      norm_num
      exact e3 f
    simp [SamplePoints.iterList, e1]
  · intro α inst1 inst2 start stop y step fuel h1 h2
    simp only [SamplePoints.iterList]
    rw [rangeTail_none_step h1 h2]
    rfl

/-- Closed instance of the range-iteration theorem: a range whose start
exceeds its stop (9 down to 3, default step) yields only the start, and
the parsed "10-20:5" range iterates to [10, 15, 20]. -/
theorem sample_points_range_iteration_witness :
    QuantOps.addq (9 : NN) ((none : Option NN).getD (DefaultStep.default_step 9))
        = some 10
    ∧ QuantOps.gtq (10 : NN) 3 = some true
    ∧ ((2 : ℕ) ≤ 5
        ∧ SamplePoints.iterList (SamplePoints.Range (10 : NN) 20 (some 5)) 5
            = some [10, 15, 20])
    ∧ SamplePoints.iterList (SamplePoints.Range (9 : NN) 3 none) 7 = some [9] :=
  ⟨rfl, rfl, ⟨by norm_num, sample_points_range_iteration.2.2.1 5 (by norm_num)⟩,
   sample_points_range_iteration.2.2.2 NN instQuantOpsNN instDefaultStepNN
     9 3 10 none 7 rfl rfl⟩

/-- C4: backend-variant selection in `SimParams::result` is a total, pure
function of the discrete fields: direct-calculation and
structure-simulation each map to a single variant regardless of the
quorum/attack flags, and full-simulation maps the four flag pairs onto
four distinct variants, with no combination unhandled. -/
theorem select_tool_total_pure :
    (∀ p : SimParams, p.sim_type = SimType.DirectCalc →
        select_tool p = ToolVariant.directCalcTool)
    ∧ (∀ p : SimParams, p.sim_type = SimType.Structure →
        select_tool p = ToolVariant.simStructureTool)
    ∧ (∀ p : SimParams, p.sim_type = SimType.FullSim →
        select_tool p ∈ [ToolVariant.fullSimpleUntarg, ToolVariant.fullAgeUntarg,
          ToolVariant.fullSimpleTarg, ToolVariant.fullAgeTarg])
    ∧ (∀ p q : SimParams, p.sim_type = SimType.FullSim →
        q.sim_type = SimType.FullSim →
        (select_tool p = select_tool q ↔
          (p.age_quorum = q.age_quorum ∧ p.targetting = q.targetting))) := by
  refine ⟨?_, ?_, ?_, ?_⟩
  · intro p h
    simp [select_tool, h]
  · intro p h
    simp [select_tool, h]
  · intro p h
    cases hb : p.age_quorum <;> cases htt : p.targetting <;>
      simp [select_tool, h, hb, htt]
  · intro p q hp hq
    cases hbp : p.age_quorum <;> cases htp : p.targetting <;>
      cases hbq : q.age_quorum <;> cases htq : q.targetting <;>
        simp [select_tool, hp, hq, hbp, htp, hbq, htq]

/-- Closed instance of the selection theorem: direct-calculation mode maps
to the direct-calculation backend even with both flags set. -/
theorem select_tool_total_pure_witness :
    ((⟨SimType.DirectCalc, true, AttackType.SimpleTargetted, 5, RelOrAbs.Abs 1,
        2, 1, 3, 4⟩ : SimParams).sim_type = SimType.DirectCalc)
    ∧ select_tool ⟨SimType.DirectCalc, true, AttackType.SimpleTargetted, 5,
        RelOrAbs.Abs 1, 2, 1, 3, 4⟩ = ToolVariant.directCalcTool :=
  ⟨rfl, select_tool_total_pure.1 _ rfl⟩

/-- C5: dispatch resolves the malicious quantity against the node count
when building `ToolArgs`, succeeds exactly when the invariants hold, and a
configuration with minimum group size 0 fails with an invariant error
before any backend variant is produced. -/
theorem result_invariant_gate :
    (∀ p : SimParams, p.tool_args.num_malicious
        = p.num_malicious.from_base p.num_nodes)
    ∧ (∀ p : SimParams, (p.result).isOk = p.tool_args.check_invariant)
    ∧ (∀ p : SimParams, p.min_group_size = 0 →
        p.result = Except.error "invariant violation") := by
  refine ⟨fun p => rfl, ?_, ?_⟩
  · intro p
    unfold SimParams.result
    cases hc : p.tool_args.check_invariant <;>
      simp [hc, Except.isOk, Except.toBool]
  · intro p h
    have hc : p.tool_args.check_invariant = false := by
      simp [ToolArgs.check_invariant, SimParams.tool_args, h]
    simp [SimParams.result, hc]

/-- Closed instance of the invariant gate: minimum group size 0 aborts
with the invariant error. -/
theorem result_invariant_gate_witness :
    ((⟨SimType.DirectCalc, false, AttackType.Untargetted, 100, RelOrAbs.Abs 5,
        0, 1, 10, 10⟩ : SimParams).min_group_size = 0)
    ∧ (⟨SimType.DirectCalc, false, AttackType.Untargetted, 100, RelOrAbs.Abs 5,
        0, 1, 10, 10⟩ : SimParams).result
        = Except.error "invariant violation" :=
  ⟨rfl, result_invariant_gate.2.2 _ rfl⟩

/-- C6: addition and ordering comparison between a `Rel` and an `Abs`
quantity fail explicitly (`none`, the modelled panic), never silently
producing a value, while matched pairs succeed and operate on the wrapped
numbers. -/
theorem rel_abs_mismatch_fails :
    (∀ (x : RR) (y : NN), RelOrAbs.add (RelOrAbs.Rel x) (RelOrAbs.Abs y) = none)
    ∧ (∀ (x : RR) (y : NN), RelOrAbs.add (RelOrAbs.Abs y) (RelOrAbs.Rel x) = none)
    ∧ (∀ (x : RR) (y : NN),
        RelOrAbs.partial_cmp (RelOrAbs.Rel x) (RelOrAbs.Abs y) = none)
    ∧ (∀ (x : RR) (y : NN),
        RelOrAbs.partial_cmp (RelOrAbs.Abs y) (RelOrAbs.Rel x) = none)
    ∧ (∀ x y : RR, RelOrAbs.add (RelOrAbs.Rel x) (RelOrAbs.Rel y)
        = some (RelOrAbs.Rel (x + y)))
    ∧ (∀ x y : NN, RelOrAbs.add (RelOrAbs.Abs x) (RelOrAbs.Abs y)
        = some (RelOrAbs.Abs (x + y)))
    ∧ (∀ x y : RR, RelOrAbs.partial_cmp (RelOrAbs.Rel x) (RelOrAbs.Rel y)
        = some (compare x y))
    ∧ (∀ x y : NN, RelOrAbs.partial_cmp (RelOrAbs.Abs x) (RelOrAbs.Abs y)
        = some (compare x y)) :=
  ⟨fun _ _ => rfl, fun _ _ => rfl, fun _ _ => rfl, fun _ _ => rfl,
   fun _ _ => rfl, fun _ _ => rfl, fun _ _ => rfl, fun _ _ => rfl⟩

/-- C7: a numeral with trailing '%' parses to `Rel` of the numeral divided
by 100 (so "20%" gives `Rel(0.2)`), a plain numeral parses to `Abs`;
resolution maps `Rel(p)` to the floor of `base * p` (for the non-negative
proportions the tool handles) and `Abs(n)` to `n`; and
`Rel(0.2).from_base(500) = 100`. -/
theorem rel_or_abs_parse_resolve :
    RelOrAbs.from_str ("20%").data = some (RelOrAbs.Rel (1 / 5))
    ∧ RelOrAbs.from_str ("50").data = some (RelOrAbs.Abs 50)
    ∧ (∀ (p : RR) (b : NN), 0 ≤ p →
        (((RelOrAbs.Rel p).from_base b : ℕ) : ℤ) = ⌊(b : ℚ) * p⌋)
    ∧ (∀ n b : NN, (RelOrAbs.Abs n).from_base b = n)
    ∧ (RelOrAbs.Rel (1 / 5)).from_base 500 = 100 := by
  refine ⟨?_, rfl, ?_, fun _ _ => rfl, ?_⟩
  · have e : RelOrAbs.from_str ("20%").data
        = some (RelOrAbs.Rel (((20 : ℕ) : ℚ) * (1 / 100))) := rfl
    rw [e]
    norm_num
  · intro p b hp
    show ((⌊(b : ℚ) * p⌋).toNat : ℤ) = ⌊(b : ℚ) * p⌋
    exact Int.toNat_of_nonneg
      (Int.floor_nonneg.mpr (mul_nonneg (Nat.cast_nonneg b) hp))
  · show (⌊(500 : ℚ) * (1 / 5)⌋).toNat = 100
    have hf : ⌊(500 : ℚ) * (1 / 5)⌋ = 100 := by norm_num
    rw [hf]
    rfl

/-- Closed instance of the parse/resolve theorem: the resolved relative
proportion one fifth of 500 is the floor of 100. -/
theorem rel_or_abs_parse_resolve_witness :
    (0 : ℚ) ≤ 1 / 5
    ∧ (((RelOrAbs.Rel (1 / 5)).from_base 500 : ℕ) : ℤ) = ⌊(500 : ℚ) * (1 / 5)⌋ :=
  ⟨by norm_num, rel_or_abs_parse_resolve.2.2.1 (1 / 5) 500 (by norm_num)⟩

/-- C8: every omitted flag defaults its dimension to a single-value sample
set with the documented default: nodes 1000, malicious `Rel(0.1)`, minimum
group size 10, quorum proportion 0.5, quorum algorithm plain, attack
strategy untargeted; and with every flag omitted the whole expansion is
the one default configuration with max steps 1000 and 100 repetitions. -/
theorem make_sim_params_defaults :
    (∀ a : Args, a.flag_n = none →
        nodes_range_of a = some (SamplePoints.Number 1000))
    ∧ (∀ a : Args, a.flag_r = none →
        mal_range_of a = some (SamplePoints.Number (RelOrAbs.Rel (1 / 10))))
    ∧ (∀ a : Args, a.flag_k = none →
        group_range_of a = some (SamplePoints.Number 10))
    ∧ (∀ a : Args, a.flag_q = none →
        quorum_range_of a = some (SamplePoints.Number (1 / 2)))
    ∧ q_use_age_of none = some [false]
    ∧ at_type_of none = some [AttackType.Untargetted]
    ∧ (∀ fuel : ℕ,
        make_sim_params ⟨true, false, false, none, none, none, none, none,
            none, none, none⟩ fuel
          = some [⟨SimType.DirectCalc, false, AttackType.Untargetted, 1000,
              RelOrAbs.Rel (1 / 10), 10, 1 / 2, 1000, 100⟩]) := by
  refine ⟨?_, ?_, ?_, ?_, rfl, rfl, fun fuel => rfl⟩
  · intro a h
    simp [nodes_range_of, h]
  · intro a h
    simp [mal_range_of, h]
  · intro a h
    simp [group_range_of, h]
  · intro a h
    simp [quorum_range_of, h]

/-- Closed instance of the defaults theorem at the all-defaults `calc`
command line. -/
theorem make_sim_params_defaults_witness :
    ((⟨true, false, false, none, none, none, none, none, none, none,
        none⟩ : Args).flag_n = none)
    ∧ nodes_range_of ⟨true, false, false, none, none, none, none, none, none,
        none, none⟩ = some (SamplePoints.Number 1000) :=
  ⟨rfl, make_sim_params_defaults.1 _ rfl⟩

theorem default_step_rr (x : RR) : DefaultStep.default_step x = 1 := rfl

/-- C10: the default step of the plain real quantity type is 1.0 (not the
0.1 used for relative proportions), so the quorum-proportion range parsed
from "0.5-0.7" with no explicit step iterates to the single value 0.5:
the first stepped candidate 1.5 already exceeds the stop value 0.7. -/
theorem rr_default_step_one :
    (∀ x : RR, DefaultStep.default_step x = 1)
    ∧ SamplePoints.from_str parseRR ("0.5-0.7").data
        = some (SamplePoints.Range (1 / 2 : RR) (7 / 10) none)
    ∧ (∀ fuel : ℕ, SamplePoints.iterList
        (SamplePoints.Range (1 / 2 : RR) (7 / 10) none) fuel
          = some [(1 / 2 : RR)]) := by
  refine ⟨fun _ => rfl, ?_, ?_⟩
  · have e : SamplePoints.from_str parseRR ("0.5-0.7").data
        = some (SamplePoints.Range
            (((0 : ℕ) : ℚ) + ((5 : ℕ) : ℚ) / ((10 : ℚ) ^ (1 : ℕ)))
            (((0 : ℕ) : ℚ) + ((7 : ℕ) : ℚ) / ((10 : ℚ) ^ (1 : ℕ))) none) := rfl
    rw [e]
    norm_num
  · intro fuel
    have h1 : QuantOps.addq (1 / 2 : RR)
        ((none : Option RR).getD (DefaultStep.default_step (1 / 2 : RR)))
        = some (3 / 2 : ℚ) := by
      show QuantOps.addq (1 / 2 : RR) 1 = some (3 / 2 : ℚ)
      rw [addq_rr]
      norm_num
    have h2 : QuantOps.gtq (3 / 2 : RR) (7 / 10) = some true := by
      rw [gtq_rr]
      norm_num
    simp only [SamplePoints.iterList]
    rw [rangeTail_none_step h1 h2]
    rfl

/-- C3 counterexample: the real-valued range parsed from "5-3:-3" (Rust's
float grammar accepts the signed step) has start 5 exceeding stop 3, yet
iteration emits 2 right after the leading 5 because the negative step
brings the candidate back under the stop; so a parsed range whose start
exceeds its stop does not always yield only its start. -/
theorem range_start_exceeds_stop_not_single :
    SamplePoints.from_str parseRR ("5-3:-3").data
        = some (SamplePoints.Range (5 : RR) 3 (some (-3)))
    ∧ (3 : RR) < 5
    ∧ SamplePoints.iterList (SamplePoints.Range (5 : RR) 3 (some (-3))) 1
        = some [5, 2]
    ∧ ([(5 : RR), 2] : List RR) ≠ [(5 : RR)] := by
  refine ⟨?_, by norm_num, ?_, by simp⟩
  · have e : SamplePoints.from_str parseRR ("5-3:-3").data
        = some (SamplePoints.Range ((5 : ℕ) : ℚ) ((3 : ℕ) : ℚ)
            (some (-((3 : ℕ) : ℚ)))) := rfl
    rw [e]
    norm_num
  · have ha : (5 : RR) + (some (-3 : RR)).getD (DefaultStep.default_step (5 : RR))
        = 2 := by
      show (5 : RR) + -3 = 2
      norm_num
    have h2 : QuantOps.gtq (2 : RR) 3 = some false := by
      rw [gtq_rr]
      simp only [Option.some.injEq, decide_eq_false_iff_not]
      norm_num
    simp only [SamplePoints.iterList, rangeTail, ha, h2]
    rfl
